import Mathlib

/-!
Verification of the incremental mesh compressor of Kimera-PGMO
(`MeshCompression::compressAndIntegrate`, `MeshCompression::pruneStoredMesh`
in src/compression/MeshCompression.cpp) against its specification.

Modelling conventions:
* 3D positions are idealized as integer triples (`Pt`); the voxel grid
  quantizes a coordinate by flooring division at the configured resolution.
  Color payloads carried by `pcl::PointXYZRGBA` are irrelevant to every
  property treated here and are not modelled.
* Timestamps are integers; only their ordering is used by the code.
* `std::unordered_map<size_t, size_t>` is modelled as an association list in
  insertion order (`umInsert` = `insert`, never overwriting; `umAssign` =
  `operator[]` assignment).  Iteration order of an unordered map is never
  observed by the source, only lookups are.
* `std::map` (ordered) is modelled as a key-sorted association list.
  `operator[]` used as a read with default (`adjacent_polygons_[v]`) is
  modelled as a pure lookup-with-default: the default-insertion performed by
  `std::map::operator[]` writes the same empty value that an absent key
  already denotes for every read in the source, so the two states are
  observationally identical.
-/

namespace KimeraPgmo

/-- An idealized 3D position (coordinates as integers). -/
structure Pt where
  x : Int
  y : Int
  z : Int
deriving DecidableEq, Repr, Inhabited

/-- The voxel cell that a point falls into at the given resolution. -/
def cellOf (res : Int) (p : Pt) : Int × Int × Int :=
  (p.x.fdiv res, p.y.fdiv res, p.z.fdiv res)

/-- Modelled from the spec: the spatial-index query used by
`checkIfVertexUnique` / `checkIfVertexTempUnique`, whose octree/voxel backends
(`OctreeCompression`, `VoxelClearingCompression`) are not part of `src/`.
Per spec section 4.1 the index is a voxel grid keyed by quantized coordinates
where each occupied cell stores the slot index of the first point that landed
in it; a query hits iff a stored point occupies the query point's cell, and
ties are broken by smallest slot index. -/
def gridQuery (res : Int) (pts : List Pt) (p : Pt) : Option Nat :=
  pts.findIdx? (fun q => cellOf res q == cellOf res p)

/-- Lookup in an association list (first matching key). -/
def alFind {β : Type} (m : List (Nat × β)) (k : Nat) : Option β :=
  (m.find? (fun e => e.1 == k)).map (fun e => e.2)

/-- Lookup with default. -/
def alGetD {β : Type} (m : List (Nat × β)) (k : Nat) (d : β) : β :=
  (alFind m k).getD d

/-- `std::map` insertion-or-assignment keeping keys sorted
(`operator[]=` on an ordered map). -/
def alSet {β : Type} : List (Nat × β) → Nat → β → List (Nat × β)
  | [], k, v => [(k, v)]
  | e :: rest, k, v =>
    if k < e.1 then (k, v) :: e :: rest
    else if k = e.1 then (k, v) :: rest
    else e :: alSet rest k v

/-- `std::unordered_map::insert` — no effect when the key is present. -/
def umInsert (m : List (Nat × Nat)) (k v : Nat) : List (Nat × Nat) :=
  if (alFind m k).isSome then m else m ++ [(k, v)]

/-- `std::unordered_map::operator[]` assignment — overwrite or append. -/
def umAssign : List (Nat × Nat) → Nat → Nat → List (Nat × Nat)
  | [], k, v => [(k, v)]
  | e :: rest, k, v => if e.1 = k then (k, v) :: rest else e :: umAssign rest k v

/-- `unordered_map<size_t, vector<size_t>>` `operator[]`-and-`push_back`
(used for `converged_vertices`). -/
def umlAppend : List (Nat × List Nat) → Nat → Nat → List (Nat × List Nat)
  | [], k, x => [(k, [x])]
  | e :: rest, k, x =>
    if e.1 = k then (e.1, e.2 ++ [x]) :: rest else e :: umlAppend rest k x

/-- `unordered_map<size_t, vector<size_t>>::insert({k, {}})` — insert an empty
vector if the key is absent. -/
def umlInsertEmpty (m : List (Nat × List Nat)) (k : Nat) : List (Nat × List Nat) :=
  if (alFind m k).isSome then m else m ++ [(k, [])]

/-- `std::map<size_t, vector<size_t>>` `operator[]`-and-`push_back`
(used for `adjacent_polygons_`). -/
def adjAppend (m : List (Nat × List Nat)) (k idx : Nat) : List (Nat × List Nat) :=
  alSet m k (alGetD m k [] ++ [idx])

/-- `std::map<size_t, size_t>::insert` — sorted, no effect when the key is
present (used for the per-block remap values). -/
def smInsert : List (Nat × Nat) → Nat → Nat → List (Nat × Nat)
  | [], k, v => [(k, v)]
  | e :: rest, k, v =>
    if k < e.1 then (k, v) :: e :: rest
    else if k = e.1 then e :: rest
    else e :: smInsert rest k v

/-- Equality of two triangles as unordered vertex sets. -/
def sameVertexSet (a b : List Nat) : Bool :=
  a.all (fun v => b.contains v) && b.all (fun v => a.contains v)

/-- Modelled from the spec: `SurfaceExists` lives in
`utils/CommonFunctions.cpp`, which is not part of `src/`.  Per spec
section 4.3 it returns true iff some polygon already adjacent to any vertex of
`t` equals `t` as an unordered triple. -/
def SurfaceExists (t : List Nat) (adj : List (Nat × List Nat))
    (polys : List (List Nat)) : Bool :=
  t.any (fun v => (alGetD adj v []).any
    (fun pidx => sameVertexSet (polys.getD pidx []) t))

/-- The persistent state of a `MeshCompression` object:
`active_vertices_xyz_`, `all_vertices_`, `active_vertices_index_`,
`vertices_latest_time_`, `polygons_`, `adjacent_polygons_`. -/
structure CompressorState where
  activeXyz : List Pt
  allVertices : List Pt
  activeIndex : List Nat
  latestTime : List Int
  polygons : List (List Nat)
  adjacentPolygons : List (Nat × List Nat)
deriving DecidableEq, Repr

/-- The caller-supplied output buffers of the flat variant:
`new_vertices`, `new_triangles`, `new_indices`, `remapping`. -/
structure Buffers where
  newVertices : List Pt
  newTriangles : List (List Nat)
  newIndices : List Nat
  remap : List (Nat × Nat)
deriving DecidableEq, Repr

/-- Accumulator of the vertex-classification loop (source lines 56–105). -/
structure Phase1Acc where
  tempNew : List Pt
  potentialNew : List Nat
  potentialCheck : List Bool
  tempReindex : List Nat
  reindex : List (Nat × Nat)
  newIndices : List Nat
  latestTime : List Int
deriving DecidableEq, Repr

/-- One iteration of the vertex-classification loop of the flat
`compressAndIntegrate` (source lines 72–105).  `nAll` is
`num_original_vertices`, `i` the input-vertex index. -/
def phase1Step (res : Int) (nAll : Nat) (activeXyz : List Pt)
    (activeIndex : List Nat) (stamp : Int) (i : Nat) (p : Pt)
    (acc : Phase1Acc) : Phase1Acc :=
  match gridQuery res activeXyz p with
  | some s =>
      -- reobservation: `checkIfVertexUnique` reported a nearby active vertex
      let vid := activeIndex.getD s 0
      { acc with
        reindex := umAssign acc.reindex i vid
        tempReindex := acc.tempReindex ++ [vid]
        newIndices :=
          if acc.newIndices.contains vid then acc.newIndices
          else acc.newIndices ++ [vid]
        latestTime := acc.latestTime.set s stamp }
  | none =>
      match gridQuery res acc.tempNew p with
      | some k =>
          -- duplicate of a provisional already in the temp structure
          { acc with tempReindex := acc.tempReindex ++ [nAll + k] }
      | none =>
          -- fresh provisional vertex
          { acc with
            tempNew := acc.tempNew ++ [p]
            potentialNew := acc.potentialNew ++ [i]
            potentialCheck := acc.potentialCheck ++ [false]
            tempReindex := acc.tempReindex ++ [nAll + acc.tempNew.length] }

/-- The vertex-classification loop of the flat `compressAndIntegrate`. -/
def phase1 (res : Int) (nAll : Nat) (activeXyz : List Pt)
    (activeIndex : List Nat) (stamp : Int) :
    List Pt → Nat → Phase1Acc → Phase1Acc
  | [], _, acc => acc
  | p :: rest, i, acc =>
      phase1 res nAll activeXyz activeIndex stamp rest (i + 1)
        (phase1Step res nAll activeXyz activeIndex stamp i p acc)

/-- One iteration of the first pass through the faces (source lines 106–128):
mark every provisional referenced by a non-degenerate face containing a new
vertex. -/
def phase2Step (nAll : Nat) (tempReindex : List Nat) (check : List Bool)
    (s : List Nat) : List Bool :=
  let rs := s.map (fun i => tempReindex.getD i 0)
  if rs.any (fun v => decide (nAll ≤ v)) = false then check
  else if rs.length < 3 ∨ rs.getD 0 0 = rs.getD 1 0 ∨
      rs.getD 1 0 = rs.getD 2 0 ∨ rs.getD 2 0 = rs.getD 0 0 then check
  else
    rs.foldl (fun c v => if nAll ≤ v then c.set (v - nAll) true else c) check

/-- Accumulator of the provisional-commit loop (source lines 131–160). -/
structure Phase3Acc where
  activeXyz : List Pt
  allVertices : List Pt
  activeIndex : List Nat
  latestTime : List Int
  reindex : List (Nat × Nat)
  remap : List (Nat × Nat)
  newIndices : List Nat
  newVertices : List Pt
deriving DecidableEq, Repr

/-- Commit of the `i`-th provisional slot (source lines 132–159).  The fan-out
loop mirrors lines 149–155 exactly: the source compares `temp_reindex[i]`
(indexed by the loop counter over `potential_new_vertices`) with
`temp_reindex[m]`. -/
def phase3Commit (inputVertices : List Pt) (potentialNew : List Nat)
    (tempReindex : List Nat) (stamp : Int) (acc : Phase3Acc) (i : Nat) :
    Phase3Acc :=
  let inputIdx := potentialNew.getD i 0
  let p := inputVertices.getD inputIdx default
  let vid := acc.allVertices.length
  let fan := (List.range tempReindex.length).foldl
    (fun r m =>
      if inputIdx ≠ m ∧ tempReindex.getD i 0 = tempReindex.getD m 0 then
        umInsert r m vid
      else r)
    (umInsert acc.remap inputIdx vid)
  { activeXyz := acc.activeXyz ++ [p]
    allVertices := acc.allVertices ++ [p]
    activeIndex := acc.activeIndex ++ [vid]
    latestTime := acc.latestTime ++ [stamp]
    reindex := umAssign acc.reindex inputIdx vid
    remap := fan
    newIndices := acc.newIndices ++ [vid]
    newVertices := acc.newVertices ++ [p] }

/-- One iteration of the provisional-commit loop. -/
def phase3Step (inputVertices : List Pt) (potentialNew : List Nat)
    (check : List Bool) (tempReindex : List Nat) (stamp : Int)
    (acc : Phase3Acc) (i : Nat) : Phase3Acc :=
  if check.getD i false then
    phase3Commit inputVertices potentialNew tempReindex stamp acc i
  else acc

/-- The provisional-commit loop of the flat `compressAndIntegrate`. -/
def phase3 (inputVertices : List Pt) (potentialNew : List Nat)
    (check : List Bool) (tempReindex : List Nat) (stamp : Int)
    (init : Phase3Acc) : Phase3Acc :=
  (List.range potentialNew.length).foldl
    (phase3Step inputVertices potentialNew check tempReindex stamp) init

/-- Accumulator of the second pass through the faces (source lines 164–197,
textually identical in the block variant at lines 362–395). -/
structure Phase4Acc where
  polygons : List (List Nat)
  adjacentPolygons : List (Nat × List Nat)
  newTriangles : List (List Nat)
deriving DecidableEq, Repr

/-- One iteration of the second pass through the faces: remap through
`reindex` (dropping indices without an entry), reject short or degenerate
results, and append surfaces that contain a new vertex or are not already
stored. -/
def phase4Step (nAll : Nat) (reindex : List (Nat × Nat)) (acc : Phase4Acc)
    (s : List Nat) : Phase4Acc :=
  let rs := s.foldl
    (fun l idx =>
      match alFind reindex idx with
      | none => l
      | some v => l ++ [v]) []
  if rs.length < 3 then acc
  else if rs.getD 0 0 = rs.getD 1 0 ∨ rs.getD 1 0 = rs.getD 2 0 ∨
      rs.getD 2 0 = rs.getD 0 0 then acc
  else
    let newSurface :=
      if rs.any (fun v => decide (nAll ≤ v)) then true
      else !(SurfaceExists rs acc.adjacentPolygons acc.polygons)
    if newSurface then
      { polygons := acc.polygons ++ [rs]
        newTriangles := acc.newTriangles ++ [rs]
        adjacentPolygons :=
          rs.foldl (fun a v => adjAppend a v acc.polygons.length)
            acc.adjacentPolygons }
    else acc

/-- The body of the flat `compressAndIntegrate` past the early-exit guard
(source lines 56–198). -/
def compressFlatCore (res : Int) (σ : CompressorState)
    (inputVertices : List Pt) (inputSurfaces : List (List Nat)) (stamp : Int)
    (bufs : Buffers) : CompressorState × Buffers :=
  let nAll := σ.allVertices.length
  let a1 := phase1 res nAll σ.activeXyz σ.activeIndex stamp inputVertices 0
    { tempNew := [], potentialNew := [], potentialCheck := [],
      tempReindex := [], reindex := [], newIndices := bufs.newIndices,
      latestTime := σ.latestTime }
  let check := inputSurfaces.foldl (phase2Step nAll a1.tempReindex)
    a1.potentialCheck
  let p3 := phase3 inputVertices a1.potentialNew check a1.tempReindex stamp
    { activeXyz := σ.activeXyz, allVertices := σ.allVertices,
      activeIndex := σ.activeIndex, latestTime := a1.latestTime,
      reindex := a1.reindex, remap := a1.reindex,
      newIndices := a1.newIndices, newVertices := bufs.newVertices }
  let p4 := inputSurfaces.foldl (phase4Step nAll p3.reindex)
    { polygons := σ.polygons, adjacentPolygons := σ.adjacentPolygons,
      newTriangles := bufs.newTriangles }
  (⟨p3.activeXyz, p3.allVertices, p3.activeIndex, p3.latestTime,
    p4.polygons, p4.adjacentPolygons⟩,
   ⟨p3.newVertices, p4.newTriangles, p3.newIndices, p3.remap⟩)

/-- The flat variant
`MeshCompression::compressAndIntegrate(input_vertices, input_surfaces,
new_vertices, new_triangles, new_indices, remapping, stamp_in_sec)`
(source lines 37–199).  The caller's output buffers are passed in `bufs` and
returned extended; line 129 (`*remapping = reindex`) discards the caller's
remap content. -/
def compressAndIntegrateFlat (res : Int) (σ : CompressorState)
    (inputVertices : List Pt) (inputSurfaces : List (List Nat)) (stamp : Int)
    (bufs : Buffers) : CompressorState × Buffers :=
  if inputVertices.length < 3 ∨ inputSurfaces.length = 0 then (σ, bufs)
  else compressFlatCore res σ inputVertices inputSurfaces stamp bufs

/-- One iteration of the prune loop (source lines 422–430).  The loop is
bounded by `vertices_latest_time_.size()`; the reads of
`active_vertices_xyz_->points[i]` and `active_vertices_index_[i]` are
unchecked in the source (undefined behavior when out of range), modelled here
as `none`. -/
def pruneStep (σ : CompressorState) (t : Int)
    (temps : List Pt × List Int × List Nat × List (Nat × List Nat)) (i : Nat) :
    Option (List Pt × List Int × List Nat × List (Nat × List Nat)) :=
  let time := σ.latestTime.getD i 0
  if t < time then
    match σ.activeXyz.get? i, σ.activeIndex.get? i with
    | some p, some id =>
        some (temps.1 ++ [p], temps.2.1 ++ [time], temps.2.2.1 ++ [id],
          alSet temps.2.2.2 id (alGetD σ.adjacentPolygons id []))
    | _, _ => none
  else some temps

/-- `MeshCompression::pruneStoredMesh` (source lines 399–445).  Returns `none`
when the loop would read one of the parallel arrays out of range (undefined
behavior in the source); otherwise the surviving entries replace the active
set when at least one slot was dropped. -/
def pruneStoredMesh (σ : CompressorState) (t : Int) : Option CompressorState :=
  if σ.activeXyz.length = 0 then some σ
  else
    match (List.range σ.latestTime.length).foldlM (pruneStep σ t)
        ([], [], [], []) with
    | none => none
    | some (ta, tt, ti, tadj) =>
        some (if ta.length < σ.activeXyz.length then
          { σ with
            activeXyz := ta
            latestTime := tt
            activeIndex := ti
            adjacentPolygons := tadj }
          else σ)

/-!  The block (voxblox) variant of `compressAndIntegrate`
(source lines 201–397). -/

/-- A voxblox block index. -/
abbrev Blk := Int × Int × Int

/-- One mesh block of a `voxblox_msgs::Mesh`.  `pts` are the block's vertices
after `ExtractPoint` decoding (every consecutive three form one triangle). -/
structure MeshBlock where
  idx : Blk
  pts : List Pt
deriving DecidableEq, Repr

/-- The block remap `VoxbloxIndexMapping`
(`unordered_map<BlockIndex, map<size_t, size_t>>`). -/
abbrev BlockRemap := List (Blk × List (Nat × Nat))

/-- Lookup of a block entry. -/
def brFind (m : BlockRemap) (k : Blk) : Option (List (Nat × Nat)) :=
  (m.find? (fun e => e.1 == k)).map (fun e => e.2)

/-- Source lines 246–249: insert an empty inner map if the block key is
absent. -/
def brInsertIfAbsent (m : BlockRemap) (k : Blk) : BlockRemap :=
  if (brFind m k).isSome then m else m ++ [(k, [])]

/-- `remapping->at(k).insert({ik, v})` (source lines 346–347 and 351–352).
The key `k` is always present at the call sites (inserted when its block was
first visited); on an absent key this model is a no-op where `at` would
throw. -/
def brAtInsert (m : BlockRemap) (k : Blk) (ik v : Nat) : BlockRemap :=
  m.map (fun e => if e.1 == k then (e.1, smInsert e.2 ik v) else e)

/-- Output buffers of the block variant. -/
structure BBuffers where
  newVertices : List Pt
  newTriangles : List (List Nat)
  newIndices : List Nat
  remap : BlockRemap
deriving DecidableEq, Repr

/-- Accumulator of the block-variant first pass (source lines 214–328). -/
structure BPhase1Acc where
  tempNew : List Pt
  potentialNew : List Nat
  potentialCheck : List Bool
  tempReindex : List Nat
  newIndices : List Nat
  latestTime : List Int
  countToBlock : List (Blk × Nat)
  allParsed : List Pt
  converged : List (Nat × List Nat)
  inputSurfaces : List (List Nat)
  remap : BlockRemap
deriving DecidableEq, Repr

/-- Classification of one block vertex plus the inline face prefilter
(source lines 252–327).  `b` is the block index, `i` the index within the
block; the running global counter `count` equals `allParsed.length`. -/
def bVertexStep (res : Int) (nAll : Nat) (activeXyz : List Pt)
    (activeIndex : List Nat) (stamp : Int) (b : Blk) (i : Nat) (p : Pt)
    (acc : BPhase1Acc) : BPhase1Acc :=
  let count := acc.allParsed.length
  let acc := { acc with
    countToBlock := acc.countToBlock ++ [(b, i)]
    allParsed := acc.allParsed ++ [p] }
  let acc :=
    match gridQuery res activeXyz p with
    | some s =>
        -- reobservation; note: the block variant does not record it in
        -- `reindex`
        let vid := activeIndex.getD s 0
        { acc with
          tempReindex := acc.tempReindex ++ [vid]
          newIndices :=
            if acc.newIndices.contains vid then acc.newIndices
            else acc.newIndices ++ [vid]
          latestTime := acc.latestTime.set s stamp }
    | none =>
      match gridQuery res acc.tempNew p with
      | some k =>
          { acc with
            tempReindex := acc.tempReindex ++ [nAll + k]
            converged := umlAppend acc.converged (acc.potentialNew.getD k 0)
              count }
      | none =>
          { acc with
            tempNew := acc.tempNew ++ [p]
            potentialNew := acc.potentialNew ++ [count]
            potentialCheck := acc.potentialCheck ++ [false]
            tempReindex := acc.tempReindex ++ [nAll + acc.tempNew.length]
            converged := umlInsertEmpty acc.converged count }
  if i % 3 = 2 then
    let origS := [count - 2, count - 1, count]
    let rs := origS.map (fun j => acc.tempReindex.getD j 0)
    let acc := { acc with inputSurfaces := acc.inputSurfaces ++ [origS] }
    if rs.any (fun v => decide (nAll ≤ v)) = false then acc
    else if rs.length < 3 ∨ rs.getD 0 0 = rs.getD 1 0 ∨
        rs.getD 1 0 = rs.getD 2 0 ∨ rs.getD 2 0 = rs.getD 0 0 then acc
    else
      { acc with
        potentialCheck :=
          rs.foldl (fun c v => if nAll ≤ v then c.set (v - nAll) true else c)
            acc.potentialCheck }
  else acc

/-- The vertex loop of one mesh block. -/
def bVertices (res : Int) (nAll : Nat) (activeXyz : List Pt)
    (activeIndex : List Nat) (stamp : Int) (b : Blk) :
    List Pt → Nat → BPhase1Acc → BPhase1Acc
  | [], _, acc => acc
  | p :: rest, i, acc =>
      bVertices res nAll activeXyz activeIndex stamp b rest (i + 1)
        (bVertexStep res nAll activeXyz activeIndex stamp b i p acc)

/-- Processing of one mesh block (source lines 241–328): register the block
key in the remap, then classify its vertices. -/
def bBlockStep (res : Int) (nAll : Nat) (activeXyz : List Pt)
    (activeIndex : List Nat) (stamp : Int) (acc : BPhase1Acc)
    (blk : MeshBlock) : BPhase1Acc :=
  bVertices res nAll activeXyz activeIndex stamp blk.idx blk.pts 0
    { acc with remap := brInsertIfAbsent acc.remap blk.idx }

/-- Accumulator of the block-variant commit loop (source lines 330–358). -/
structure BPhase3Acc where
  activeXyz : List Pt
  allVertices : List Pt
  activeIndex : List Nat
  latestTime : List Int
  reindex : List (Nat × Nat)
  remap : BlockRemap
  newIndices : List Nat
  newVertices : List Pt
deriving DecidableEq, Repr

/-- One iteration of the block-variant commit loop: commit the `i`-th
provisional if marked, writing both the flat `reindex` and the block remap,
and fan out to every input that converged onto this provisional. -/
def bPhase3Step (allParsed : List Pt) (potentialNew : List Nat)
    (check : List Bool) (converged : List (Nat × List Nat))
    (countToBlock : List (Blk × Nat)) (stamp : Int) (acc : BPhase3Acc)
    (i : Nat) : BPhase3Acc :=
  if check.getD i false then
    let inputIdx := potentialNew.getD i 0
    let p := allParsed.getD inputIdx default
    let vid := acc.allVertices.length
    let cb := countToBlock.getD inputIdx ((0, 0, 0), 0)
    let acc1 : BPhase3Acc :=
      { activeXyz := acc.activeXyz ++ [p]
        allVertices := acc.allVertices ++ [p]
        activeIndex := acc.activeIndex ++ [vid]
        latestTime := acc.latestTime ++ [stamp]
        reindex := umAssign acc.reindex inputIdx vid
        remap := brAtInsert acc.remap cb.1 cb.2 vid
        newIndices := acc.newIndices
        newVertices := acc.newVertices }
    let acc2 := (alGetD converged inputIdx []).foldl
      (fun a m =>
        let cbm := countToBlock.getD m ((0, 0, 0), 0)
        { a with
          reindex := umAssign a.reindex m vid
          remap := brAtInsert a.remap cbm.1 cbm.2 vid }) acc1
    { acc2 with
      newIndices := acc2.newIndices ++ [vid]
      newVertices := acc2.newVertices ++ [p] }
  else acc

/-- The block (voxblox) variant
`MeshCompression::compressAndIntegrate(mesh, new_vertices, new_triangles,
new_indices, remapping, stamp_in_sec)` (source lines 201–397).  Unlike the
flat variant it has no early-exit guard and it keeps the caller's remap
content, only inserting into it. -/
def compressAndIntegrateBlock (res : Int) (σ : CompressorState)
    (mesh : List MeshBlock) (stamp : Int) (bufs : BBuffers) :
    CompressorState × BBuffers :=
  let nAll := σ.allVertices.length
  let a1 := mesh.foldl (bBlockStep res nAll σ.activeXyz σ.activeIndex stamp)
    { tempNew := [], potentialNew := [], potentialCheck := [],
      tempReindex := [], newIndices := bufs.newIndices,
      latestTime := σ.latestTime, countToBlock := [], allParsed := [],
      converged := [], inputSurfaces := [], remap := bufs.remap }
  let p3 := (List.range a1.potentialNew.length).foldl
    (bPhase3Step a1.allParsed a1.potentialNew a1.potentialCheck a1.converged
      a1.countToBlock stamp)
    { activeXyz := σ.activeXyz, allVertices := σ.allVertices,
      activeIndex := σ.activeIndex, latestTime := a1.latestTime,
      reindex := [], remap := a1.remap, newIndices := a1.newIndices,
      newVertices := bufs.newVertices }
  let p4 := a1.inputSurfaces.foldl (phase4Step nAll p3.reindex)
    { polygons := σ.polygons, adjacentPolygons := σ.adjacentPolygons,
      newTriangles := bufs.newTriangles }
  (⟨p3.activeXyz, p3.allVertices, p3.activeIndex, p3.latestTime,
    p4.polygons, p4.adjacentPolygons⟩,
   ⟨p3.newVertices, p4.newTriangles, p3.newIndices, p3.remap⟩)

/-!  The flat variant with an injectable spatial-index insertion failure, to
reason about mid-batch backend failures.  `bad p` makes the
`updateStructure` call of the commit loop (source line 139) fail on point
`p`.  The failure propagates out of the call (there is no handler in the
source), so the caller observes the state as mutated so far; the `.error`
payload carries that state and the buffers. -/

/-- The commit loop with a failing `updateStructure`: the push to
`active_vertices_xyz_` (line 138) precedes the failing call, every later
mutation of the iteration is skipped, and the loop aborts. -/
def phase3Fail (bad : Pt → Bool) (inputVertices : List Pt)
    (potentialNew : List Nat) (check : List Bool) (tempReindex : List Nat)
    (stamp : Int) : List Nat → Phase3Acc → Except Phase3Acc Phase3Acc
  | [], acc => .ok acc
  | i :: rest, acc =>
      if check.getD i false then
        let p := inputVertices.getD (potentialNew.getD i 0) default
        if bad p then
          .error { acc with activeXyz := acc.activeXyz ++ [p] }
        else
          phase3Fail bad inputVertices potentialNew check tempReindex stamp
            rest (phase3Commit inputVertices potentialNew tempReindex stamp
              acc i)
      else phase3Fail bad inputVertices potentialNew check tempReindex stamp
        rest acc

/-- The flat `compressAndIntegrate` with an injectable backend failure during
the commit loop.  `.error` carries the compressor state and buffers as the
caller observes them when the exception propagates. -/
def compressFlatFail (res : Int) (bad : Pt → Bool) (σ : CompressorState)
    (inputVertices : List Pt) (inputSurfaces : List (List Nat)) (stamp : Int)
    (bufs : Buffers) :
    Except (CompressorState × Buffers) (CompressorState × Buffers) :=
  if inputVertices.length < 3 ∨ inputSurfaces.length = 0 then .ok (σ, bufs)
  else
    let nAll := σ.allVertices.length
    let a1 := phase1 res nAll σ.activeXyz σ.activeIndex stamp inputVertices 0
      { tempNew := [], potentialNew := [], potentialCheck := [],
        tempReindex := [], reindex := [], newIndices := bufs.newIndices,
        latestTime := σ.latestTime }
    let check := inputSurfaces.foldl (phase2Step nAll a1.tempReindex)
      a1.potentialCheck
    match phase3Fail bad inputVertices a1.potentialNew check a1.tempReindex
        stamp (List.range a1.potentialNew.length)
        { activeXyz := σ.activeXyz, allVertices := σ.allVertices,
          activeIndex := σ.activeIndex, latestTime := a1.latestTime,
          reindex := a1.reindex, remap := a1.reindex,
          newIndices := a1.newIndices, newVertices := bufs.newVertices } with
    | .error e =>
        .error (⟨e.activeXyz, e.allVertices, e.activeIndex, e.latestTime,
          σ.polygons, σ.adjacentPolygons⟩,
          ⟨e.newVertices, bufs.newTriangles, e.newIndices, e.remap⟩)
    | .ok p3 =>
        let p4 := inputSurfaces.foldl (phase4Step nAll p3.reindex)
          { polygons := σ.polygons, adjacentPolygons := σ.adjacentPolygons,
            newTriangles := bufs.newTriangles }
        .ok (⟨p3.activeXyz, p3.allVertices, p3.activeIndex, p3.latestTime,
          p4.polygons, p4.adjacentPolygons⟩,
          ⟨p3.newVertices, p4.newTriangles, p3.newIndices, p3.remap⟩)

/-- Projection of the error payload's cumulative vertex list, used to state
concrete facts about a failed call. -/
def errAllVertices
    (r : Except (CompressorState × Buffers) (CompressorState × Buffers)) :
    Option (List Pt) :=
  match r with
  | .error e => some e.1.allVertices
  | .ok _ => none

/-!  Concrete fixtures used by the evaluation theorems. -/

/-- A freshly constructed compressor. -/
def emptyState : CompressorState := ⟨[], [], [], [], [], []⟩

/-- Empty caller buffers (flat variant). -/
def emptyBufs : Buffers := ⟨[], [], [], []⟩

/-- Empty caller buffers (block variant). -/
def emptyBBufs : BBuffers := ⟨[], [], [], []⟩

/-- Batch exhibiting the dropped-triangle behavior: the second input vertex
collides with the first inside the batch, and the only surface references it
through its own input index. -/
def convergedCornerVertices : List Pt :=
  [⟨0, 0, 0⟩, ⟨0, 0, 0⟩, ⟨5, 0, 0⟩, ⟨9, 0, 0⟩]

/-- The single surface of `convergedCornerVertices`. -/
def convergedCornerSurfaces : List (List Nat) := [[1, 2, 3]]

/-- Batch exhibiting the remap fan-out misindexing: inputs 1 and 3 converge
onto the provisionals created by inputs 0 and 2. -/
def fanOutVertices : List Pt :=
  [⟨0, 0, 0⟩, ⟨0, 0, 0⟩, ⟨5, 0, 0⟩, ⟨5, 0, 0⟩, ⟨9, 0, 0⟩]

/-- The single surface of `fanOutVertices`. -/
def fanOutSurfaces : List (List Nat) := [[0, 2, 4]]

/-- Whether a stored triangle references a vertex committed during the batch
that started with `nAll` cumulative vertices. -/
def freshIn (nAll : Nat) (tri : List Nat) : Bool :=
  tri.any (fun v => decide (nAll ≤ v))

/-- The invariant carried through the second face pass: the stored polygons
extend the pre-batch polygons; adjacency covers every stored polygon; and any
two stored polygons that are equal as unordered vertex sets are both from the
current batch, the later one referencing a freshly committed vertex. -/
def phase4Inv (P0 : List (List Nat)) (nAll : Nat) (acc : Phase4Acc) : Prop :=
  (∃ added, acc.polygons = P0 ++ added) ∧
  (∀ pidx, pidx < acc.polygons.length → ∀ v ∈ acc.polygons.getD pidx [],
    pidx ∈ alGetD acc.adjacentPolygons v []) ∧
  (∀ i j, i < j → j < acc.polygons.length →
    sameVertexSet (acc.polygons.getD i []) (acc.polygons.getD j []) = true →
    P0.length ≤ i ∧ freshIn nAll (acc.polygons.getD j []) = true)

/-- The active-slot indices that survive `prune(t)`: positions within the
last-seen array whose timestamp is strictly later than the cutoff. -/
def survivors (σ : CompressorState) (t : Int) : List Nat :=
  (List.range σ.latestTime.length).filter
    (fun i => decide (t < σ.latestTime.getD i 0))

/-- The `VertexId`s of the surviving active slots. -/
def survivorIds (σ : CompressorState) (t : Int) : List Nat :=
  (survivors σ t).map (fun i => σ.activeIndex.getD i 0)

/-- A state whose bookkeeping arrays disagree with the last-seen array being
the longest: two timestamps but a single active position and index. -/
def staleLongTimes : CompressorState :=
  ⟨[⟨0, 0, 0⟩], [⟨0, 0, 0⟩], [0], [5, 5], [], []⟩

/-- A state whose bookkeeping arrays disagree with the last-seen array being
the shortest: two active positions and indices but a single timestamp. -/
def staleShortTimes : CompressorState :=
  ⟨[⟨0, 0, 0⟩, ⟨5, 0, 0⟩], [⟨0, 0, 0⟩, ⟨5, 0, 0⟩], [0, 1], [5], [], []⟩

/-- A well-formed two-slot state with one stored triangle, used to exercise
`pruneStoredMesh`. -/
def twoSlotState : CompressorState :=
  ⟨[⟨0, 0, 0⟩, ⟨5, 0, 0⟩], [⟨0, 0, 0⟩, ⟨5, 0, 0⟩], [0, 1], [1, 3],
   [[0, 1, 7]], [(0, [0]), (1, [0])]⟩

/-- A state with a single committed and active vertex at the origin. -/
def oneActiveState : CompressorState :=
  ⟨[⟨0, 0, 0⟩], [⟨0, 0, 0⟩], [0], [1], [], []⟩

/-- The vertices of spec scenario 1 (two far triangles). -/
def farVertices : List Pt :=
  [⟨0, 0, 0⟩, ⟨2, 0, 0⟩, ⟨0, 2, 0⟩, ⟨10, 0, 0⟩, ⟨12, 0, 0⟩, ⟨10, 2, 0⟩]

/-- The surfaces of spec scenario 1. -/
def farSurfaces : List (List Nat) := [[0, 1, 2], [3, 4, 5]]

/-- A backend-failure predicate: the spatial-index insertion fails on any
point with x-coordinate 10. -/
def failOnXTen : Pt → Bool := fun p => p.x == 10

/-- The state and buffers observed by the caller when the spec-scenario-1
batch fails on inserting its fourth committed vertex. -/
def failedCallError : CompressorState × Buffers :=
  (⟨[⟨0, 0, 0⟩, ⟨2, 0, 0⟩, ⟨0, 2, 0⟩, ⟨10, 0, 0⟩],
    [⟨0, 0, 0⟩, ⟨2, 0, 0⟩, ⟨0, 2, 0⟩], [0, 1, 2], [1, 1, 1], [], []⟩,
   ⟨[⟨0, 0, 0⟩, ⟨2, 0, 0⟩, ⟨0, 2, 0⟩], [], [0, 1, 2],
    [(0, 0), (1, 1), (2, 2)]⟩)

/-!  Theorems.  General lemmas about the map models come first. -/

theorem alFind_append_of_some {β : Type} {m : List (Nat × β)} {k : Nat}
    {v : β} (h : alFind m k = some v) (m' : List (Nat × β)) :
    alFind (m ++ m') k = some v := by
  unfold alFind at h ⊢
  rw [List.find?_append]
  cases hf : m.find? (fun e => e.1 == k) with
  | none => rw [hf] at h; simp at h
  | some e => rw [hf] at h; simp [Option.or, h]

theorem alFind_umAssign_self (m : List (Nat × Nat)) (k v : Nat) :
    alFind (umAssign m k v) k = some v := by
  induction m with
  | nil => simp [umAssign, alFind]
  | cons e rest ih =>
      by_cases h : e.1 = k
      · simp [umAssign, h, alFind]
      · simp only [umAssign, if_neg h]
        unfold alFind at ih ⊢
        rw [List.find?_cons_of_neg]
        · exact ih
        · simp [h]

theorem alFind_umAssign_ne (m : List (Nat × Nat)) {k k' : Nat} (v : Nat)
    (h : k ≠ k') : alFind (umAssign m k' v) k = alFind m k := by
  induction m with
  | nil => simp [umAssign, alFind, Ne.symm h]
  | cons e rest ih =>
      by_cases he : e.1 = k'
      · simp only [umAssign, if_pos he]
        unfold alFind
        rw [List.find?_cons_of_neg _ (by simp [Ne.symm h]),
          List.find?_cons_of_neg _ (by simp [he, Ne.symm h])]
      · simp only [umAssign, if_neg he]
        unfold alFind at ih ⊢
        cases hp : ((fun e : Nat × Nat => e.1 == k) e) with
        | true => simp [List.find?_cons, hp]
        | false =>
            rw [List.find?_cons_of_neg _ (by simp_all),
              List.find?_cons_of_neg _ (by simp_all)]
            exact ih

theorem alFind_umInsert_of_some {m : List (Nat × Nat)} {k v : Nat}
    (k' v' : Nat) (h : alFind m k = some v) :
    alFind (umInsert m k' v') k = some v := by
  unfold umInsert
  split
  · exact h
  · exact alFind_append_of_some h _

theorem alFind_alSet_self {β : Type} (m : List (Nat × β)) (k : Nat) (v : β) :
    alFind (alSet m k v) k = some v := by
  induction m with
  | nil => simp [alSet, alFind]
  | cons e rest ih =>
      by_cases h1 : k < e.1
      · simp [alSet, if_pos h1, alFind]
      · by_cases h2 : k = e.1
        · simp [alSet, if_neg h1, if_pos h2, alFind]
        · simp only [alSet, if_neg h1, if_neg h2]
          unfold alFind at ih ⊢
          rw [List.find?_cons_of_neg]
          · exact ih
          · simp; omega

theorem alFind_alSet_ne {β : Type} (m : List (Nat × β)) {k k' : Nat} (v : β)
    (h : k ≠ k') : alFind (alSet m k' v) k = alFind m k := by
  induction m with
  | nil => simp [alSet, alFind, Ne.symm h]
  | cons e rest ih =>
      by_cases h1 : k' < e.1
      · simp only [alSet, if_pos h1]
        unfold alFind
        rw [List.find?_cons_of_neg _ (by simp [Ne.symm h])]
      · by_cases h2 : k' = e.1
        · simp only [alSet, if_neg h1, if_pos h2]
          unfold alFind
          rw [List.find?_cons_of_neg _ (by simp [Ne.symm h]),
            List.find?_cons_of_neg _ (by simp [← h2, Ne.symm h])]
        · simp only [alSet, if_neg h1, if_neg h2]
          unfold alFind at ih ⊢
          cases hp : ((fun e : Nat × β => e.1 == k) e) with
          | true => simp [List.find?_cons, hp]
          | false =>
              rw [List.find?_cons_of_neg _ (by simp_all),
                List.find?_cons_of_neg _ (by simp_all)]
              exact ih

theorem alGetD_adjAppend_self (m : List (Nat × List Nat)) (k idx : Nat) :
    alGetD (adjAppend m k idx) k [] = alGetD m k [] ++ [idx] := by
  unfold adjAppend alGetD
  rw [alFind_alSet_self]
  rfl

theorem alGetD_adjAppend_ne (m : List (Nat × List Nat)) {k k' : Nat}
    (idx : Nat) (h : k ≠ k') :
    alGetD (adjAppend m k' idx) k [] = alGetD m k [] := by
  unfold adjAppend alGetD
  rw [alFind_alSet_ne _ _ h]

theorem mem_alGetD_foldl_adjAppend (n : Nat) :
    ∀ (rs : List Nat) (m : List (Nat × List Nat)) (k x : Nat),
      x ∈ alGetD m k [] →
      x ∈ alGetD (rs.foldl (fun a v => adjAppend a v n) m) k [] := by
  intro rs
  induction rs with
  | nil => intro m k x hx; exact hx
  | cons v rest ih =>
      intro m k x hx
      apply ih
      by_cases h : k = v
      · subst h
        rw [alGetD_adjAppend_self]
        exact List.mem_append_left _ hx
      · rw [alGetD_adjAppend_ne _ _ h]
        exact hx

theorem self_mem_alGetD_foldl_adjAppend (n : Nat) :
    ∀ (rs : List Nat) (m : List (Nat × List Nat)) (k : Nat), k ∈ rs →
      n ∈ alGetD (rs.foldl (fun a v => adjAppend a v n) m) k [] := by
  intro rs
  induction rs with
  | nil => intro m k hk; exact absurd hk (List.not_mem_nil k)
  | cons v rest ih =>
      intro m k hk
      rcases List.mem_cons.mp hk with h | h
      · subst h
        simp only [List.foldl_cons]
        apply mem_alGetD_foldl_adjAppend
        rw [alGetD_adjAppend_self]
        exact List.mem_append_right _ (List.mem_singleton.mpr rfl)
      · exact ih _ _ h

theorem getD_concat_self {α : Type} (l : List α) (a d : α) :
    (l ++ [a]).getD l.length d = a := by
  rw [List.getD_eq_getElem?_getD, List.getElem?_concat_length]
  rfl

theorem getD_mem_of_lt {α : Type} (l : List α) (n : Nat) (d : α)
    (h : n < l.length) : l.getD n d ∈ l := by
  rw [List.getD_eq_getElem?_getD, List.getElem?_eq_getElem h]
  exact List.getElem_mem h

theorem sameVertexSet_true_iff {a b : List Nat} :
    sameVertexSet a b = true ↔ (∀ v ∈ a, v ∈ b) ∧ (∀ v ∈ b, v ∈ a) := by
  simp [sameVertexSet, List.all_eq_true, List.contains]

theorem SurfaceExists_true_iff {t : List Nat} {adj : List (Nat × List Nat)}
    {polys : List (List Nat)} :
    SurfaceExists t adj polys = true ↔
      ∃ v ∈ t, ∃ pidx ∈ alGetD adj v [],
        sameVertexSet (polys.getD pidx []) t = true := by
  simp [SurfaceExists, List.any_eq_true]

/-!  Lemmas about the classification loop's `reindex` and its preservation
through the commit loop, leading to C8. -/

theorem phase1_reindex_of_lt (res : Int) (nAll : Nat) (activeXyz : List Pt)
    (activeIndex : List Nat) (stamp : Int) :
    ∀ (l : List Pt) (start : Nat) (acc : Phase1Acc) (k : Nat), k < start →
      alFind (phase1 res nAll activeXyz activeIndex stamp l start acc).reindex
        k = alFind acc.reindex k := by
  intro l
  induction l with
  | nil => intro start acc k hk; rfl
  | cons p rest ih =>
      intro start acc k hk
      rw [phase1, ih (start + 1) _ k (Nat.lt_succ_of_lt hk)]
      unfold phase1Step
      cases hq : gridQuery res activeXyz p with
      | some s =>
          simp only
          exact alFind_umAssign_ne _ _ (Nat.ne_of_lt hk)
      | none => cases gridQuery res acc.tempNew p <;> rfl

theorem phase1_reindex_of_reobs (res : Int) (nAll : Nat) (activeXyz : List Pt)
    (activeIndex : List Nat) (stamp : Int) :
    ∀ (l : List Pt) (start : Nat) (acc : Phase1Acc) (j : Nat), j < l.length →
      ∀ s : Nat, gridQuery res activeXyz (l.getD j default) = some s →
      alFind (phase1 res nAll activeXyz activeIndex stamp l start acc).reindex
        (start + j) = some (activeIndex.getD s 0) := by
  intro l
  induction l with
  | nil => intro start acc j hj; exact absurd hj (by simp)
  | cons p rest ih =>
      intro start acc j hj s hq
      cases j with
      | zero =>
          rw [phase1,
            phase1_reindex_of_lt res nAll activeXyz activeIndex stamp rest
              (start + 1) _ (start + 0) (by omega)]
          simp only [List.getD_cons_zero] at hq
          simp only [phase1Step, hq, Nat.add_zero]
          exact alFind_umAssign_self _ _ _
      | succ j' =>
          rw [phase1, show start + (j' + 1) = (start + 1) + j' by omega]
          exact ih (start + 1) _ j' (by simpa using hj) s
            (by simpa using hq)

theorem alFind_fan_of_some {k v : Nat} (vid inputIdx i : Nat)
    (tempReindex : List Nat) :
    ∀ (l : List Nat) (r : List (Nat × Nat)), alFind r k = some v →
      alFind (l.foldl
        (fun r m =>
          if inputIdx ≠ m ∧ tempReindex.getD i 0 = tempReindex.getD m 0 then
            umInsert r m vid
          else r) r) k = some v := by
  intro l
  induction l with
  | nil => intro r h; exact h
  | cons m rest ih =>
      intro r h
      simp only [List.foldl_cons]
      apply ih
      split
      · exact alFind_umInsert_of_some _ _ h
      · exact h

theorem phase3Step_remap_of_some (inputVertices : List Pt)
    (potentialNew : List Nat) (check : List Bool) (tempReindex : List Nat)
    (stamp : Int) (acc : Phase3Acc) (i : Nat) {k v : Nat}
    (h : alFind acc.remap k = some v) :
    alFind (phase3Step inputVertices potentialNew check tempReindex stamp
      acc i).remap k = some v := by
  unfold phase3Step phase3Commit
  split
  · simp only
    exact alFind_fan_of_some _ _ _ _ _ _
      (alFind_umInsert_of_some _ _ h)
  · exact h

theorem phase3_remap_of_some (inputVertices : List Pt)
    (potentialNew : List Nat) (check : List Bool) (tempReindex : List Nat)
    (stamp : Int) {k v : Nat} :
    ∀ (l : List Nat) (acc : Phase3Acc), alFind acc.remap k = some v →
      alFind ((l.foldl
        (phase3Step inputVertices potentialNew check tempReindex stamp)
        acc)).remap k = some v := by
  intro l
  induction l with
  | nil => intro acc h; exact h
  | cons i rest ih =>
      intro acc h
      simp only [List.foldl_cons]
      exact ih _ (phase3Step_remap_of_some _ _ _ _ _ _ _ h)

/-- C8: in the flat variant, every input vertex classified as a reobservation
(the main spatial index reports a hit at slot `s`) receives the remap entry
`i ↦ active_vertices_index_[s]` in the returned remapping, regardless of
whether any surviving triangle of the batch references it. -/
theorem reobserved_inputs_present_in_flat_remap (res : Int)
    (σ : CompressorState) (vs : List Pt) (ss : List (List Nat)) (stamp : Int)
    (bufs : Buffers) (i s : Nat) (hlen : 3 ≤ vs.length) (hss : ss ≠ [])
    (hi : i < vs.length)
    (hq : gridQuery res σ.activeXyz (vs.getD i default) = some s) :
    alFind (compressAndIntegrateFlat res σ vs ss stamp bufs).2.remap i =
      some (σ.activeIndex.getD s 0) := by
  unfold compressAndIntegrateFlat
  rw [if_neg (by
    push_neg
    exact ⟨by omega, by simpa using hss⟩)]
  unfold compressFlatCore phase3
  simp only
  apply phase3_remap_of_some
  have := phase1_reindex_of_reobs res σ.allVertices.length σ.activeXyz
    σ.activeIndex stamp vs 0
    { tempNew := [], potentialNew := [], potentialCheck := [],
      tempReindex := [], reindex := [], newIndices := bufs.newIndices,
      latestTime := σ.latestTime } i hi s hq
  simpa using this

/-!  Lemmas about block-remap keys, leading to C9. -/

theorem brFind_insertIfAbsent_self (m : BlockRemap) (k : Blk) :
    (brFind (brInsertIfAbsent m k) k).isSome := by
  unfold brInsertIfAbsent
  split
  · assumption
  · unfold brFind at *
    rw [List.find?_append]
    cases hf : m.find? (fun e => e.1 == k) with
    | none => simp [Option.or, List.find?]
    | some e => simp [Option.or, hf]

theorem brFind_isSome_insertIfAbsent {m : BlockRemap} {k : Blk} (k' : Blk)
    (h : (brFind m k).isSome) : (brFind (brInsertIfAbsent m k') k).isSome := by
  unfold brInsertIfAbsent
  split
  · exact h
  · unfold brFind at *
    rw [List.find?_append]
    cases hf : m.find? (fun e => e.1 == k) with
    | none => rw [hf] at h; simp at h
    | some e => simp [Option.or, hf]

theorem brFind_atInsert_isSome (m : BlockRemap) (k' : Blk) (ik v : Nat)
    (k : Blk) :
    (brFind (brAtInsert m k' ik v) k).isSome = (brFind m k).isSome := by
  induction m with
  | nil => rfl
  | cons e rest ih =>
      have hhead :
          (if (e.1 == k') = true then (e.1, smInsert e.2 ik v) else e).1 =
            e.1 := by
        split <;> rfl
      unfold brAtInsert brFind at ih ⊢
      simp only [List.map_cons, List.find?_cons, hhead]
      cases hk : (e.1 == k) with
      | true => simp [hk]
      | false => simp only [hk]; exact ih

theorem bVertexStep_remap (res : Int) (nAll : Nat) (activeXyz : List Pt)
    (activeIndex : List Nat) (stamp : Int) (b : Blk) (i : Nat) (p : Pt)
    (acc : BPhase1Acc) :
    (bVertexStep res nAll activeXyz activeIndex stamp b i p acc).remap =
      acc.remap := by
  unfold bVertexStep
  simp only
  cases gridQuery res activeXyz p with
  | some s => split_ifs <;> rfl
  | none =>
      simp only
      cases gridQuery res acc.tempNew p with
      | some k => split_ifs <;> rfl
      | none => split_ifs <;> rfl

theorem bVertices_remap (res : Int) (nAll : Nat) (activeXyz : List Pt)
    (activeIndex : List Nat) (stamp : Int) (b : Blk) :
    ∀ (l : List Pt) (i : Nat) (acc : BPhase1Acc),
      (bVertices res nAll activeXyz activeIndex stamp b l i acc).remap =
        acc.remap := by
  intro l
  induction l with
  | nil => intro i acc; rfl
  | cons p rest ih =>
      intro i acc
      rw [bVertices, ih, bVertexStep_remap]

theorem blocks_fold_remap_isSome (res : Int) (nAll : Nat)
    (activeXyz : List Pt) (activeIndex : List Nat) (stamp : Int) :
    ∀ (mesh : List MeshBlock) (acc : BPhase1Acc) (k : Blk),
      (brFind acc.remap k).isSome →
      (brFind ((mesh.foldl
        (bBlockStep res nAll activeXyz activeIndex stamp) acc).remap)
        k).isSome := by
  intro mesh
  induction mesh with
  | nil => intro acc k h; exact h
  | cons blk rest ih =>
      intro acc k h
      simp only [List.foldl_cons]
      apply ih
      unfold bBlockStep
      rw [bVertices_remap]
      exact brFind_isSome_insertIfAbsent _ h

theorem blocks_fold_remap_key (res : Int) (nAll : Nat) (activeXyz : List Pt)
    (activeIndex : List Nat) (stamp : Int) :
    ∀ (mesh : List MeshBlock) (acc : BPhase1Acc) (b : MeshBlock), b ∈ mesh →
      (brFind ((mesh.foldl
        (bBlockStep res nAll activeXyz activeIndex stamp) acc).remap)
        b.idx).isSome := by
  intro mesh
  induction mesh with
  | nil => intro acc b hb; exact absurd hb (List.not_mem_nil b)
  | cons blk rest ih =>
      intro acc b hb
      simp only [List.foldl_cons]
      rcases List.mem_cons.mp hb with h | h
      · subst h
        apply blocks_fold_remap_isSome
        unfold bBlockStep
        rw [bVertices_remap]
        exact brFind_insertIfAbsent_self _ _
      · exact ih _ _ h

theorem converged_fold_remap_isSome (vid : Nat)
    (countToBlock : List (Blk × Nat)) {k : Blk} :
    ∀ (l : List Nat) (a : BPhase3Acc), (brFind a.remap k).isSome →
      (brFind ((l.foldl
        (fun a m =>
          let cbm := countToBlock.getD m ((0, 0, 0), 0)
          { a with
            reindex := umAssign a.reindex m vid
            remap := brAtInsert a.remap cbm.1 cbm.2 vid }) a).remap)
        k).isSome := by
  intro l
  induction l with
  | nil => intro a h; exact h
  | cons m rest ih =>
      intro a h
      simp only [List.foldl_cons]
      apply ih
      simp only [brFind_atInsert_isSome]
      exact h

theorem bPhase3_fold_remap_isSome (allParsed : List Pt)
    (potentialNew : List Nat) (check : List Bool)
    (converged : List (Nat × List Nat)) (countToBlock : List (Blk × Nat))
    (stamp : Int) {k : Blk} :
    ∀ (l : List Nat) (acc : BPhase3Acc), (brFind acc.remap k).isSome →
      (brFind ((l.foldl (bPhase3Step allParsed potentialNew check converged
        countToBlock stamp) acc).remap) k).isSome := by
  intro l
  induction l with
  | nil => intro acc h; exact h
  | cons i rest ih =>
      intro acc h
      simp only [List.foldl_cons]
      apply ih
      unfold bPhase3Step
      split
      · simp only
        apply converged_fold_remap_isSome
        simp only [brFind_atInsert_isSome]
        exact h
      · exact h

/-- C9: in the block variant, the returned block remapping contains a key for
every block index appearing in the input mesh (with a possibly empty inner
map), even when no vertex of that block is newly committed. -/
theorem every_input_block_keyed_in_remap (res : Int) (σ : CompressorState)
    (mesh : List MeshBlock) (stamp : Int) (bufs : BBuffers) (b : MeshBlock)
    (hb : b ∈ mesh) :
    (brFind (compressAndIntegrateBlock res σ mesh stamp bufs).2.remap
      b.idx).isSome := by
  unfold compressAndIntegrateBlock
  simp only
  apply bPhase3_fold_remap_isSome
  exact blocks_fold_remap_key _ _ _ _ _ mesh _ b hb

/-- Witness for C8: on a state with one active vertex at the origin, input 0
of `convergedCornerVertices` is a reobservation of slot 0 and the returned
remap maps it to `VertexId` 0. -/
theorem reobserved_inputs_present_in_flat_remap_witness :
    3 ≤ convergedCornerVertices.length ∧ convergedCornerSurfaces ≠ [] ∧
    0 < convergedCornerVertices.length ∧
    gridQuery 1 oneActiveState.activeXyz
      (convergedCornerVertices.getD 0 default) = some 0 ∧
    alFind (compressAndIntegrateFlat 1 oneActiveState convergedCornerVertices
      convergedCornerSurfaces 2 emptyBufs).2.remap 0 =
      some (oneActiveState.activeIndex.getD 0 0) :=
  ⟨by decide, by decide, by decide, by decide,
    reobserved_inputs_present_in_flat_remap 1 oneActiveState
      convergedCornerVertices convergedCornerSurfaces 2 emptyBufs 0 0
      (by decide) (by decide) (by decide) (by decide)⟩

/-- Witness for C9: a two-block mesh (the second block empty) yields a remap
keyed by both block indices. -/
theorem every_input_block_keyed_in_remap_witness :
    (⟨(1, 0, 0), []⟩ : MeshBlock) ∈
      ([⟨(0, 0, 0), [⟨0, 0, 0⟩, ⟨5, 0, 0⟩, ⟨9, 0, 0⟩]⟩, ⟨(1, 0, 0), []⟩] :
        List MeshBlock) ∧
    (brFind (compressAndIntegrateBlock 1 emptyState
      [⟨(0, 0, 0), [⟨0, 0, 0⟩, ⟨5, 0, 0⟩, ⟨9, 0, 0⟩]⟩, ⟨(1, 0, 0), []⟩] 1
      emptyBBufs).2.remap (1, 0, 0)).isSome :=
  ⟨by decide,
    every_input_block_keyed_in_remap 1 emptyState
      [⟨(0, 0, 0), [⟨0, 0, 0⟩, ⟨5, 0, 0⟩, ⟨9, 0, 0⟩]⟩, ⟨(1, 0, 0), []⟩] 1
      emptyBBufs ⟨(1, 0, 0), []⟩ (by decide)⟩

/-!  Lemmas about duplicate-free `new_indices`, leading to C10. -/

theorem gridQuery_lt_length {res : Int} {pts : List Pt} {p : Pt} {s : Nat}
    (h : gridQuery res pts p = some s) : s < pts.length := by
  unfold gridQuery at h
  exact (List.findIdx?_eq_some_iff_findIdx_eq.mp h).1

theorem phase1_newIndices_inv (res : Int) (nAll : Nat) (activeXyz : List Pt)
    (activeIndex : List Nat) (stamp : Int)
    (hlen : activeIndex.length = activeXyz.length)
    (hidx : ∀ x ∈ activeIndex, x < nAll) :
    ∀ (l : List Pt) (start : Nat) (acc : Phase1Acc),
      acc.newIndices.Nodup → (∀ x ∈ acc.newIndices, x < nAll) →
      (phase1 res nAll activeXyz activeIndex stamp l start
        acc).newIndices.Nodup ∧
      ∀ x ∈ (phase1 res nAll activeXyz activeIndex stamp l start
        acc).newIndices, x < nAll := by
  intro l
  induction l with
  | nil => intro start acc h1 h2; exact ⟨h1, h2⟩
  | cons p rest ih =>
      intro start acc h1 h2
      rw [phase1]
      apply ih
      all_goals
        unfold phase1Step
        cases hq : gridQuery res activeXyz p with
        | none =>
            cases gridQuery res acc.tempNew p <;>
              first
              | exact h1
              | exact h2
        | some s =>
            simp only
            have hs : s < activeIndex.length := hlen ▸ gridQuery_lt_length hq
            have hv : activeIndex.getD s 0 < nAll :=
              hidx _ (getD_mem_of_lt _ _ _ hs)
            by_cases hc : acc.newIndices.contains (activeIndex.getD s 0)
            · simp only [hc, if_pos]
              first
              | exact h1
              | exact h2
            · simp only [hc]
              rw [if_neg (by simp [hc])]
              first
              | · rw [List.nodup_append]
                  refine ⟨h1, List.nodup_singleton _, ?_⟩
                  intro a ha hb
                  rw [List.mem_singleton] at hb
                  subst hb
                  exact absurd (by simpa using ha) (by simpa using hc)
              | · intro x hx
                  rcases List.mem_append.mp hx with hx | hx
                  · exact h2 x hx
                  · rw [List.mem_singleton] at hx
                    subst hx
                    exact hv

theorem phase3_newIndices_inv (inputVertices : List Pt)
    (potentialNew : List Nat) (check : List Bool) (tempReindex : List Nat)
    (stamp : Int) :
    ∀ (l : List Nat) (acc : Phase3Acc),
      acc.newIndices.Nodup →
      (∀ x ∈ acc.newIndices, x < acc.allVertices.length) →
      ((l.foldl (phase3Step inputVertices potentialNew check tempReindex
        stamp) acc).newIndices.Nodup ∧
       ∀ x ∈ (l.foldl (phase3Step inputVertices potentialNew check tempReindex
        stamp) acc).newIndices,
         x < (l.foldl (phase3Step inputVertices potentialNew check tempReindex
        stamp) acc).allVertices.length) := by
  intro l
  induction l with
  | nil => intro acc h1 h2; exact ⟨h1, h2⟩
  | cons i rest ih =>
      intro acc h1 h2
      simp only [List.foldl_cons]
      apply ih
      all_goals
        unfold phase3Step phase3Commit
        split
        case isTrue =>
          simp only
          first
          | · rw [List.nodup_append]
              refine ⟨h1, List.nodup_singleton _, ?_⟩
              intro a ha hb
              rw [List.mem_singleton] at hb
              subst hb
              exact absurd (h2 _ ha) (lt_irrefl _)
          | · intro x hx
              simp only [List.length_append, List.length_singleton]
              rcases List.mem_append.mp hx with hx | hx
              · exact Nat.lt_succ_of_lt (h2 x hx)
              · rw [List.mem_singleton] at hx
                subst hx
                omega
        case isFalse =>
          first
          | exact h1
          | exact h2

/-- C10: when `compressAndIntegrate` (flat variant) is called with an empty
`new_indices` buffer on a state whose active `VertexId`s are valid indices of
`all_vertices`, the returned `new_indices` list has no duplicate entries:
reobserved ids are appended only if absent and committed ids are fresh. -/
theorem returned_new_indices_nodup (res : Int) (σ : CompressorState)
    (vs : List Pt) (ss : List (List Nat)) (stamp : Int) (bufs : Buffers)
    (hb : bufs.newIndices = [])
    (hlen : σ.activeIndex.length = σ.activeXyz.length)
    (hidx : ∀ x ∈ σ.activeIndex, x < σ.allVertices.length) :
    (compressAndIntegrateFlat res σ vs ss stamp
      bufs).2.newIndices.Nodup := by
  unfold compressAndIntegrateFlat
  split
  · simp [hb]
  · unfold compressFlatCore phase3
    simp only
    have h1 := phase1_newIndices_inv res σ.allVertices.length σ.activeXyz
      σ.activeIndex stamp hlen hidx vs 0
      { tempNew := [], potentialNew := [], potentialCheck := [],
        tempReindex := [], reindex := [], newIndices := bufs.newIndices,
        latestTime := σ.latestTime }
      (by rw [hb]; exact List.nodup_nil)
      (by rw [hb]; intro x hx; exact absurd hx (List.not_mem_nil x))
    exact (phase3_newIndices_inv _ _ _ _ _ _ _ h1.1 h1.2).1

/-- Witness for C10: the fan-out batch on a one-active-vertex state (where
input 0 reobserves the active vertex) yields duplicate-free `new_indices`. -/
theorem returned_new_indices_nodup_witness :
    emptyBufs.newIndices = [] ∧
    oneActiveState.activeIndex.length = oneActiveState.activeXyz.length ∧
    (∀ x ∈ oneActiveState.activeIndex,
      x < oneActiveState.allVertices.length) ∧
    (compressAndIntegrateFlat 1 oneActiveState fanOutVertices fanOutSurfaces 2
      emptyBufs).2.newIndices.Nodup :=
  ⟨by decide, by decide, by decide,
    returned_new_indices_nodup 1 oneActiveState fanOutVertices fanOutSurfaces
      2 emptyBufs (by decide) (by decide) (by decide)⟩

/-!  Lemmas about the prune loop, leading to C4 and C7. -/

theorem get?_eq_some_getD {α : Type} (l : List α) (n : Nat) (d : α)
    (h : n < l.length) : l.get? n = some (l.getD n d) := by
  rw [List.get?_eq_getElem?, List.getElem?_eq_getElem h,
    List.getD_eq_getElem?_getD, List.getElem?_eq_getElem h]
  rfl

theorem map_getD_range {α : Type} (l : List α) (d : α) :
    (List.range l.length).map (fun i => l.getD i d) = l := by
  apply List.ext_get
  · simp
  · intro n h1 h2
    simp [List.get_map, List.get_range, List.getD_eq_getElem?_getD,
      List.getElem?_eq_getElem h2]

theorem alFind_foldl_alSet (g : Nat → Nat) (f : Nat → List Nat) :
    ∀ (ids : List Nat) (m : List (Nat × List Nat)) (k : Nat),
      alFind (ids.foldl (fun m i => alSet m (g i) (f (g i))) m) k =
        if k ∈ ids.map g then some (f k) else alFind m k := by
  intro ids
  induction ids with
  | nil => intro m k; simp
  | cons i rest ih =>
      intro m k
      simp only [List.foldl_cons, List.map_cons]
      rw [ih]
      by_cases hk : k ∈ rest.map g
      · rw [if_pos hk, if_pos (List.mem_cons_of_mem _ hk)]
      · rw [if_neg hk]
        by_cases hg : k = g i
        · subst hg
          rw [alFind_alSet_self, if_pos (List.mem_cons_self _ _)]
        · rw [alFind_alSet_ne _ _ hg,
            if_neg (by
              intro hmem
              rcases List.mem_cons.mp hmem with h | h
              · exact hg h
              · exact hk h)]

theorem alGetD_foldl_alSet (g : Nat → Nat) (f : Nat → List Nat)
    (ids : List Nat) (m : List (Nat × List Nat)) (k : Nat)
    (h : k ∈ ids.map g) :
    alGetD (ids.foldl (fun m i => alSet m (g i) (f (g i))) m) k [] = f k := by
  unfold alGetD
  rw [alFind_foldl_alSet, if_pos h]
  rfl

theorem prune_loop_char (σ : CompressorState) (t : Int)
    (hlt : σ.latestTime.length ≤ σ.activeXyz.length)
    (hidx : σ.latestTime.length ≤ σ.activeIndex.length) :
    ∀ n, n ≤ σ.latestTime.length →
      (List.range n).foldlM (pruneStep σ t) (([], [], [], []) :
        List Pt × List Int × List Nat × List (Nat × List Nat)) =
      some (((List.range n).filter
          (fun i => decide (t < σ.latestTime.getD i 0))).map
          (fun i => σ.activeXyz.getD i default),
        ((List.range n).filter
          (fun i => decide (t < σ.latestTime.getD i 0))).map
          (fun i => σ.latestTime.getD i 0),
        ((List.range n).filter
          (fun i => decide (t < σ.latestTime.getD i 0))).map
          (fun i => σ.activeIndex.getD i 0),
        ((List.range n).filter
          (fun i => decide (t < σ.latestTime.getD i 0))).foldl
          (fun m i => alSet m (σ.activeIndex.getD i 0)
            (alGetD σ.adjacentPolygons (σ.activeIndex.getD i 0) [])) []) := by
  intro n
  induction n with
  | zero => intro _; rfl
  | succ n ih =>
      intro hn
      rw [List.range_succ, List.foldlM_append, ih (by omega),
        List.filter_append, List.filter_singleton]
      show List.foldlM (pruneStep σ t) _ [n] = _
      simp only [List.foldlM_cons, List.foldlM_nil, bind_pure]
      unfold pruneStep
      simp only
      by_cases ht : t < σ.latestTime.getD n 0
      · rw [if_pos ht]
        have hx : n < σ.activeXyz.length := by omega
        have hi2 : n < σ.activeIndex.length := by omega
        rw [get?_eq_some_getD σ.activeXyz n default hx,
          get?_eq_some_getD σ.activeIndex n 0 hi2]
        rw [List.getD_eq_getElem?_getD] at ht
        simp [ht, List.map_append, List.foldl_append,
          List.getD_eq_getElem?_getD]
      · rw [if_neg ht]
        rw [List.getD_eq_getElem?_getD] at ht
        simp [ht, List.getD_eq_getElem?_getD]

/-- C4: with consistent bookkeeping lengths and distinct active `VertexId`s,
`pruneStoredMesh(t)` removes exactly the active slots whose last-seen time is
at most `t` — dropping their positions, times, `VertexId`s and adjacency
entries — while `all_vertices` and `polygons` are untouched, adjacency of
survivors is preserved, and the call is a no-op when no slot would be
dropped. -/
theorem prune_removes_exactly_stale_slots (σ : CompressorState) (t : Int)
    (hlt : σ.latestTime.length = σ.activeXyz.length)
    (hidx : σ.activeIndex.length = σ.activeXyz.length)
    (hnd : σ.activeIndex.Nodup) :
    ∃ σ', pruneStoredMesh σ t = some σ' ∧
      σ'.allVertices = σ.allVertices ∧
      σ'.polygons = σ.polygons ∧
      σ'.activeXyz =
        (survivors σ t).map (fun i => σ.activeXyz.getD i default) ∧
      σ'.latestTime =
        (survivors σ t).map (fun i => σ.latestTime.getD i 0) ∧
      σ'.activeIndex = survivorIds σ t ∧
      (∀ id ∈ survivorIds σ t,
        alGetD σ'.adjacentPolygons id [] = alGetD σ.adjacentPolygons id []) ∧
      (∀ i, i < σ.latestTime.length → σ.latestTime.getD i 0 ≤ t →
        alFind σ'.adjacentPolygons (σ.activeIndex.getD i 0) = none) ∧
      ((survivors σ t).length = σ.latestTime.length → σ' = σ) := by
  unfold pruneStoredMesh
  by_cases hz : σ.activeXyz.length = 0
  · rw [if_pos hz]
    have hte : σ.latestTime = [] := List.length_eq_zero.mp (by omega)
    have hxe : σ.activeXyz = [] := List.length_eq_zero.mp hz
    have hie : σ.activeIndex = [] := List.length_eq_zero.mp (by omega)
    refine ⟨σ, rfl, rfl, rfl, ?_, ?_, ?_, ?_, ?_, fun _ => rfl⟩
    · simp [survivors, hte, hxe]
    · simp [survivors, hte]
    · simp [survivorIds, survivors, hte, hie]
    · intro id _; rfl
    · intro i hi; rw [hte] at hi; exact absurd hi (by simp)
  · rw [if_neg hz]
    rw [prune_loop_char σ t (by omega) (by omega) σ.latestTime.length le_rfl]
    simp only
    set keep := survivors σ t with hkeep
    have hkeep' : (List.range σ.latestTime.length).filter
        (fun i => decide (t < σ.latestTime.getD i 0)) = keep := rfl
    rw [hkeep']
    have hklen : keep.length ≤ σ.latestTime.length := by
      rw [hkeep]
      unfold survivors
      calc ((List.range σ.latestTime.length).filter _).length
          ≤ (List.range σ.latestTime.length).length :=
            List.length_filter_le _ _
        _ = σ.latestTime.length := List.length_range _
    by_cases hsw : keep.length < σ.activeXyz.length
    · rw [if_pos (by simpa using hsw)]
      refine ⟨_, rfl, rfl, rfl, rfl, rfl, rfl, ?_, ?_, ?_⟩
      · intro id hid
        refine alGetD_foldl_alSet (fun i => σ.activeIndex.getD i 0)
          (fun id => alGetD σ.adjacentPolygons id []) keep [] id ?_
        unfold survivorIds at hid
        rw [← hkeep] at hid
        exact hid
      · intro i hi hle
        have hnot : σ.activeIndex.getD i 0 ∉
            keep.map (fun j => σ.activeIndex.getD j 0) := by
          intro hmem
          rcases List.mem_map.mp hmem with ⟨j, hj, hje⟩
          rw [hkeep] at hj
          unfold survivors at hj
          rcases List.mem_filter.mp hj with ⟨hjr, hjp⟩
          have hjn : j < σ.latestTime.length := List.mem_range.mp hjr
          have hji : j ≠ i := by
            intro he
            subst he
            rw [decide_eq_true_iff] at hjp
            omega
          have : σ.activeIndex.getD j 0 ≠ σ.activeIndex.getD i 0 := by
            have hj' : j < σ.activeIndex.length := by omega
            have hi' : i < σ.activeIndex.length := by omega
            rw [List.getD_eq_getElem?_getD, List.getElem?_eq_getElem hj',
              List.getD_eq_getElem?_getD, List.getElem?_eq_getElem hi']
            simp only [Option.getD_some]
            intro he
            exact hji ((List.Nodup.getElem_inj_iff hnd).mp he)
          exact this hje
        rw [alFind_foldl_alSet (fun j => σ.activeIndex.getD j 0)
          (fun id => alGetD σ.adjacentPolygons id []), if_neg hnot]
        rfl
      · intro hlen
        exfalso
        rw [hlt] at hlen
        omega
    · rw [if_neg (by simpa using hsw)]
      have hall : keep.length = σ.latestTime.length := by omega
      have hfull : ∀ i ∈ List.range σ.latestTime.length,
          (fun i => decide (t < σ.latestTime.getD i 0)) i = true := by
        apply List.filter_length_eq_length.mp
        rw [hkeep', List.length_range]
        exact hall
      have hkeq : keep = List.range σ.latestTime.length := by
        rw [hkeep]
        unfold survivors
        exact List.filter_eq_self.mpr hfull
      refine ⟨σ, rfl, rfl, rfl, ?_, ?_, ?_, ?_, ?_, fun _ => rfl⟩
      · rw [hkeq, hlt, map_getD_range]
      · rw [hkeq, map_getD_range]
      · unfold survivorIds
        rw [← hkeep, hkeq, hlt, ← hidx, map_getD_range]
      · intro id _; rfl
      · intro i hi hle
        have := hfull i (List.mem_range.mpr hi)
        rw [decide_eq_true_iff] at this
        omega

/-- Witness for C4: pruning `twoSlotState` at cutoff 2 drops exactly the slot
last seen at time 1. -/
theorem prune_removes_exactly_stale_slots_witness :
    twoSlotState.latestTime.length = twoSlotState.activeXyz.length ∧
    twoSlotState.activeIndex.length = twoSlotState.activeXyz.length ∧
    twoSlotState.activeIndex.Nodup ∧
    (∃ σ', pruneStoredMesh twoSlotState 2 = some σ' ∧
      σ'.allVertices = twoSlotState.allVertices ∧
      σ'.polygons = twoSlotState.polygons ∧
      σ'.activeXyz = (survivors twoSlotState 2).map
        (fun i => twoSlotState.activeXyz.getD i default) ∧
      σ'.latestTime = (survivors twoSlotState 2).map
        (fun i => twoSlotState.latestTime.getD i 0) ∧
      σ'.activeIndex = survivorIds twoSlotState 2 ∧
      (∀ id ∈ survivorIds twoSlotState 2,
        alGetD σ'.adjacentPolygons id [] =
          alGetD twoSlotState.adjacentPolygons id []) ∧
      (∀ i, i < twoSlotState.latestTime.length →
        twoSlotState.latestTime.getD i 0 ≤ 2 →
        alFind σ'.adjacentPolygons (twoSlotState.activeIndex.getD i 0) =
          none) ∧
      ((survivors twoSlotState 2).length = twoSlotState.latestTime.length →
        σ' = twoSlotState)) :=
  ⟨by decide, by decide, by decide,
    prune_removes_exactly_stale_slots twoSlotState 2 (by decide) (by decide)
      (by decide)⟩

/-- C7 amended: when the bookkeeping lengths disagree, the prune loop runs
over the last-seen-time length (not over the minimum of the three lengths);
provided the last-seen array is the shortest, no out-of-range access occurs
and the call completes, keeping exactly the slots (within that length) seen
after the cutoff. -/
theorem prune_proceeds_over_last_seen_length (σ : CompressorState) (t : Int)
    (h1 : σ.latestTime.length ≤ σ.activeXyz.length)
    (h2 : σ.latestTime.length ≤ σ.activeIndex.length) :
    ∃ σ', pruneStoredMesh σ t = some σ' ∧
      σ'.latestTime =
        (survivors σ t).map (fun i => σ.latestTime.getD i 0) ∧
      σ'.allVertices = σ.allVertices ∧ σ'.polygons = σ.polygons := by
  unfold pruneStoredMesh
  by_cases hz : σ.activeXyz.length = 0
  · rw [if_pos hz]
    have hte : σ.latestTime = [] := List.length_eq_zero.mp (by omega)
    exact ⟨σ, rfl, by simp [survivors, hte], rfl, rfl⟩
  · rw [if_neg hz, prune_loop_char σ t h1 h2 σ.latestTime.length le_rfl]
    simp only
    by_cases hsw : (List.filter (fun i => decide (t < σ.latestTime.getD i 0))
        (List.range σ.latestTime.length)).length < σ.activeXyz.length
    · rw [if_pos (by simpa using hsw)]
      exact ⟨_, rfl, rfl, rfl, rfl⟩
    · rw [if_neg (by simpa using hsw)]
      refine ⟨σ, rfl, ?_, rfl, rfl⟩
      have hkl : (List.filter (fun i => decide (t < σ.latestTime.getD i 0))
          (List.range σ.latestTime.length)).length ≤ σ.latestTime.length := by
        calc (List.filter _ (List.range σ.latestTime.length)).length
            ≤ (List.range σ.latestTime.length).length :=
              List.length_filter_le _ _
          _ = σ.latestTime.length := List.length_range _
      have hall : (List.filter (fun i => decide (t < σ.latestTime.getD i 0))
          (List.range σ.latestTime.length)).length = σ.latestTime.length := by
        omega
      have hfull : ∀ i ∈ List.range σ.latestTime.length,
          (fun i => decide (t < σ.latestTime.getD i 0)) i = true := by
        apply List.filter_length_eq_length.mp
        rw [List.length_range]
        exact hall
      unfold survivors
      rw [List.filter_eq_self.mpr hfull, map_getD_range]

/-- Witness for C7 amended: on `staleShortTimes` (last-seen array shorter
than the other two) prune completes without the out-of-range access. -/
theorem prune_proceeds_over_last_seen_length_witness :
    staleShortTimes.latestTime.length ≤ staleShortTimes.activeXyz.length ∧
    staleShortTimes.latestTime.length ≤ staleShortTimes.activeIndex.length ∧
    (∃ σ', pruneStoredMesh staleShortTimes 0 = some σ' ∧
      σ'.latestTime = (survivors staleShortTimes 0).map
        (fun i => staleShortTimes.latestTime.getD i 0) ∧
      σ'.allVertices = staleShortTimes.allVertices ∧
      σ'.polygons = staleShortTimes.polygons) :=
  ⟨by decide, by decide,
    prune_proceeds_over_last_seen_length staleShortTimes 0 (by decide)
      (by decide)⟩

/-!  Lemmas about mid-batch backend failure, leading to C6. -/

theorem phase3Fail_error_extends (bad : Pt → Bool) (inputVertices : List Pt)
    (potentialNew : List Nat) (check : List Bool) (tempReindex : List Nat)
    (stamp : Int) :
    ∀ (l : List Nat) (acc e : Phase3Acc),
      phase3Fail bad inputVertices potentialNew check tempReindex stamp l
        acc = .error e →
      ∃ tail, e.allVertices = acc.allVertices ++ tail := by
  intro l
  induction l with
  | nil => intro acc e h; exact absurd h (by simp [phase3Fail])
  | cons i rest ih =>
      intro acc e h
      rw [phase3Fail] at h
      split at h
      · simp only [] at h
        split at h
        · rw [Except.error.injEq] at h
          subst h
          exact ⟨[], by simp⟩
        · rcases ih _ _ h with ⟨tail, htail⟩
          refine ⟨inputVertices.getD (potentialNew.getD i 0) default :: tail,
            ?_⟩
          rw [htail]
          simp [phase3Commit]
      · exact ih _ _ h

/-- C6 amended: a spatial-index failure inside the commit loop of the flat
`compressAndIntegrate` surfaces the error to the caller, but the Mesh Store
is not rolled back: at the failure point `all_vertices` extends its entry
value by whatever was committed before the failure (and `polygons` is still
untouched, the failure happening before the triangle pass). -/
theorem backend_failure_surfaces_without_rollback (res : Int)
    (bad : Pt → Bool) (σ : CompressorState) (vs : List Pt)
    (ss : List (List Nat)) (stamp : Int) (bufs : Buffers)
    (e : CompressorState × Buffers)
    (he : compressFlatFail res bad σ vs ss stamp bufs = .error e) :
    (∃ tail, e.1.allVertices = σ.allVertices ++ tail) ∧
      e.1.polygons = σ.polygons := by
  unfold compressFlatFail at he
  split at he
  · exact absurd he (by simp)
  · simp only [] at he
    split at he
    · rw [Except.error.injEq] at he
      subst he
      refine ⟨?_, rfl⟩
      rename_i e' heq
      exact phase3Fail_error_extends bad vs _ _ _ stamp _ _ e' heq
    · exact absurd he (by simp)

/-- Witness for C6 amended: the failing two-far-triangles call surfaces an
error whose state keeps the three vertices committed before the failure. -/
theorem backend_failure_surfaces_without_rollback_witness :
    compressFlatFail 1 failOnXTen emptyState farVertices farSurfaces 1
      emptyBufs = .error failedCallError ∧
    ((∃ tail, failedCallError.1.allVertices =
        emptyState.allVertices ++ tail) ∧
      failedCallError.1.polygons = emptyState.polygons) :=
  ⟨by rfl,
    backend_failure_surfaces_without_rollback 1 failOnXTen emptyState
      farVertices farSurfaces 1 emptyBufs failedCallError (by rfl)⟩

/-!  Lemmas about the second face pass, leading to the amended C3. -/

theorem phase4_push_inv (P0 : List (List Nat)) (nAll : Nat)
    (hP0 : ∀ p ∈ P0, ∀ v ∈ p, v < nAll) (acc : Phase4Acc) (rs : List Nat)
    (hlen : 3 ≤ rs.length)
    (hkeep : freshIn nAll rs = true ∨
      SurfaceExists rs acc.adjacentPolygons acc.polygons = false)
    (h : phase4Inv P0 nAll acc) :
    phase4Inv P0 nAll
      ⟨acc.polygons ++ [rs],
       rs.foldl (fun a v => adjAppend a v acc.polygons.length)
         acc.adjacentPolygons,
       acc.newTriangles ++ [rs]⟩ := by
  obtain ⟨⟨added, hadded⟩, hcomp, hpairs⟩ := h
  refine ⟨⟨added ++ [rs], by rw [hadded, List.append_assoc]⟩, ?_, ?_⟩
  · intro pidx hpidx v hv
    simp only [List.length_append, List.length_singleton] at hpidx
    by_cases hcase : pidx < acc.polygons.length
    · rw [List.getD_append _ _ _ _ hcase] at hv
      exact mem_alGetD_foldl_adjAppend _ rs _ _ _ (hcomp pidx hcase v hv)
    · have hpn : pidx = acc.polygons.length := by omega
      subst hpn
      rw [getD_concat_self] at hv
      exact self_mem_alGetD_foldl_adjAppend _ rs _ _ hv
  · intro i j hij hj hsame
    simp only [List.length_append, List.length_singleton] at hj
    by_cases hjn : j < acc.polygons.length
    · rw [List.getD_append _ _ _ _ (show i < acc.polygons.length by omega),
        List.getD_append _ _ _ _ hjn] at hsame
      rw [List.getD_append _ _ _ _ hjn]
      exact hpairs i j hij hjn hsame
    · have hjeq : j = acc.polygons.length := by omega
      subst hjeq
      have hin : i < acc.polygons.length := hij
      rw [List.getD_append _ _ _ _ hin, getD_concat_self] at hsame
      rw [getD_concat_self]
      rcases hkeep with hfresh | hse
      · refine ⟨?_, hfresh⟩
        by_contra hlt
        push_neg at hlt
        have hgd : acc.polygons.getD i [] = P0.getD i [] := by
          rw [hadded, List.getD_append _ _ _ _ hlt]
        have hmem : P0.getD i [] ∈ P0 := getD_mem_of_lt _ _ _ hlt
        unfold freshIn at hfresh
        rcases List.any_eq_true.mp hfresh with ⟨v, hvrs, hvd⟩
        rw [decide_eq_true_iff] at hvd
        have hvin : v ∈ acc.polygons.getD i [] :=
          (sameVertexSet_true_iff.mp hsame).2 v hvrs
        rw [hgd] at hvin
        have := hP0 _ hmem v hvin
        omega
      · exfalso
        have h0 : 0 < rs.length := by omega
        have hv0 : rs.getD 0 0 ∈ rs := getD_mem_of_lt _ _ _ h0
        have hv0in : rs.getD 0 0 ∈ acc.polygons.getD i [] :=
          (sameVertexSet_true_iff.mp hsame).2 _ hv0
        have hadj : i ∈ alGetD acc.adjacentPolygons (rs.getD 0 0) [] :=
          hcomp i hin _ hv0in
        have hex : SurfaceExists rs acc.adjacentPolygons acc.polygons =
            true :=
          SurfaceExists_true_iff.mpr ⟨rs.getD 0 0, hv0, i, hadj, hsame⟩
        rw [hex] at hse
        exact absurd hse (by simp)

theorem phase4Step_inv (nAll : Nat) (reindex : List (Nat × Nat))
    (P0 : List (List Nat)) (hP0 : ∀ p ∈ P0, ∀ v ∈ p, v < nAll)
    (acc : Phase4Acc) (s : List Nat) (h : phase4Inv P0 nAll acc) :
    phase4Inv P0 nAll (phase4Step nAll reindex acc s) := by
  unfold phase4Step
  simp only
  split_ifs
  all_goals
    first
    | exact h
    | (refine phase4_push_inv P0 nAll hP0 acc _
         (Nat.le_of_not_lt (by assumption)) ?_ h
       first
       | exact Or.inl (by assumption)
       | exact Or.inr ((Bool.not_eq_true' _).mp (by assumption)))

theorem phase4_fold_inv (nAll : Nat) (reindex : List (Nat × Nat))
    (P0 : List (List Nat)) (hP0 : ∀ p ∈ P0, ∀ v ∈ p, v < nAll) :
    ∀ (ss : List (List Nat)) (acc : Phase4Acc), phase4Inv P0 nAll acc →
      phase4Inv P0 nAll (ss.foldl (phase4Step nAll reindex) acc) := by
  intro ss
  induction ss with
  | nil => intro acc h; exact h
  | cons s rest ih =>
      intro acc h
      simp only [List.foldl_cons]
      exact ih _ (phase4Step_inv _ _ _ hP0 _ _ h)

theorem prune_polygons_eq (σ : CompressorState) (t : Int)
    (σ' : CompressorState) (h : pruneStoredMesh σ t = some σ') :
    σ'.polygons = σ.polygons := by
  unfold pruneStoredMesh at h
  split at h
  · rw [Option.some.injEq] at h
    rw [← h]
  · split at h
    · exact absurd h (by simp)
    · rw [Option.some.injEq] at h
      rw [← h]
      split <;> rfl

/-- C3 amended: for any state satisfying the stored-surface invariants (all
stored polygon pairs distinct as unordered sets, adjacency covering every
stored polygon, polygon vertices within `all_vertices`), after
`compressAndIntegrate` two stored triangles can be equal as unordered vertex
sets only when both were appended during that call and the later one
references a `VertexId` committed during the call; and `prune` leaves
`polygons` unchanged. -/
theorem stored_surfaces_distinct_unless_same_batch_fresh (res : Int)
    (σ : CompressorState) (vs : List Pt) (ss : List (List Nat)) (stamp : Int)
    (bufs : Buffers)
    (h1 : ∀ i j, i < j → j < σ.polygons.length →
      sameVertexSet (σ.polygons.getD i []) (σ.polygons.getD j []) = false)
    (h2 : ∀ pidx, pidx < σ.polygons.length →
      ∀ v ∈ σ.polygons.getD pidx [],
        pidx ∈ alGetD σ.adjacentPolygons v [])
    (h3 : ∀ p ∈ σ.polygons, ∀ v ∈ p, v < σ.allVertices.length) :
    (∀ i j, i < j →
      j < (compressAndIntegrateFlat res σ vs ss stamp
        bufs).1.polygons.length →
      sameVertexSet
        ((compressAndIntegrateFlat res σ vs ss stamp bufs).1.polygons.getD
          i [])
        ((compressAndIntegrateFlat res σ vs ss stamp bufs).1.polygons.getD
          j []) = true →
      σ.polygons.length ≤ i ∧
        freshIn σ.allVertices.length
          ((compressAndIntegrateFlat res σ vs ss stamp bufs).1.polygons.getD
            j []) = true) ∧
    (∀ t σ', pruneStoredMesh σ t = some σ' → σ'.polygons = σ.polygons) := by
  refine ⟨?_, fun t σ' h => prune_polygons_eq σ t σ' h⟩
  unfold compressAndIntegrateFlat
  split
  · simp only
    intro i j hij hj hsame
    rw [h1 i j hij hj] at hsame
    exact absurd hsame (by simp)
  · unfold compressFlatCore
    simp only
    exact (phase4_fold_inv σ.allVertices.length _ σ.polygons h3 ss
      ⟨σ.polygons, σ.adjacentPolygons, bufs.newTriangles⟩
      ⟨⟨[], by simp⟩, h2, by
        intro i j hij hj hsame
        rw [h1 i j hij hj] at hsame
        exact absurd hsame (by simp)⟩).2.2

/-- Witness for C3 amended: a fresh compressor satisfies the entry
invariants vacuously; the duplicate-triangle batch then instantiates the
amended conclusion. -/
theorem stored_surfaces_distinct_unless_same_batch_fresh_witness :
    (∀ i j, i < j → j < emptyState.polygons.length →
      sameVertexSet (emptyState.polygons.getD i [])
        (emptyState.polygons.getD j []) = false) ∧
    (∀ pidx, pidx < emptyState.polygons.length →
      ∀ v ∈ emptyState.polygons.getD pidx [],
        pidx ∈ alGetD emptyState.adjacentPolygons v []) ∧
    (∀ p ∈ emptyState.polygons, ∀ v ∈ p,
      v < emptyState.allVertices.length) ∧
    ((∀ i j, i < j →
      j < (compressAndIntegrateFlat 1 emptyState
        [⟨0, 0, 0⟩, ⟨5, 0, 0⟩, ⟨9, 0, 0⟩] [[0, 1, 2], [0, 2, 1]] 1
        emptyBufs).1.polygons.length →
      sameVertexSet
        ((compressAndIntegrateFlat 1 emptyState
          [⟨0, 0, 0⟩, ⟨5, 0, 0⟩, ⟨9, 0, 0⟩] [[0, 1, 2], [0, 2, 1]] 1
          emptyBufs).1.polygons.getD i [])
        ((compressAndIntegrateFlat 1 emptyState
          [⟨0, 0, 0⟩, ⟨5, 0, 0⟩, ⟨9, 0, 0⟩] [[0, 1, 2], [0, 2, 1]] 1
          emptyBufs).1.polygons.getD j []) = true →
      emptyState.polygons.length ≤ i ∧
        freshIn emptyState.allVertices.length
          ((compressAndIntegrateFlat 1 emptyState
            [⟨0, 0, 0⟩, ⟨5, 0, 0⟩, ⟨9, 0, 0⟩] [[0, 1, 2], [0, 2, 1]] 1
            emptyBufs).1.polygons.getD j []) = true) ∧
    (∀ t σ', pruneStoredMesh emptyState t = some σ' →
      σ'.polygons = emptyState.polygons)) :=
  ⟨fun i j _ hj => absurd hj (by simp [emptyState]),
   fun pidx hpidx => absurd hpidx (by simp [emptyState]),
   fun p hp => absurd hp (by simp [emptyState]),
   stored_surfaces_distinct_unless_same_batch_fresh 1 emptyState
     [⟨0, 0, 0⟩, ⟨5, 0, 0⟩, ⟨9, 0, 0⟩] [[0, 1, 2], [0, 2, 1]] 1 emptyBufs
     (fun i j _ hj => absurd hj (by simp [emptyState]))
     (fun pidx hpidx => absurd hpidx (by simp [emptyState]))
     (fun p hp => absurd hp (by simp [emptyState]))⟩

/-- C1: the claim that every `VertexId` appended to `all_vertices` during a
`compressAndIntegrate` call is referenced by a triangle appended during the
same call fails on the code: on a fresh compressor, a batch whose only
surface references a vertex that converged onto another input's provisional
commits three vertices yet appends no polygon (the converged corner never
enters `reindex`, so the second face pass drops the surface). -/
theorem committed_vertices_without_any_surviving_triangle :
    ((compressAndIntegrateFlat 1 emptyState convergedCornerVertices
      convergedCornerSurfaces 1 emptyBufs).1.allVertices.length = 3) ∧
    ((compressAndIntegrateFlat 1 emptyState convergedCornerVertices
      convergedCornerSurfaces 1 emptyBufs).1.polygons = []) ∧
    ((compressAndIntegrateFlat 1 emptyState convergedCornerVertices
      convergedCornerSurfaces 1 emptyBufs).2.newTriangles = []) := by
  decide

/-- C2: the claim that every input vertex that converged onto a committed
provisional receives the remap entry `m ↦ v` fails in the flat variant: input
3 of `fanOutVertices` converges onto the provisional of input 2, which is
committed as `VertexId` 1 (remap entry `2 ↦ 1`), yet the returned remap sends
3 to 2 — the fan-out loop of source lines 149–155 reads `temp_reindex` at the
provisional loop counter instead of the input index. -/
theorem flat_remap_fan_out_misindexed :
    (alFind (compressAndIntegrateFlat 1 emptyState fanOutVertices
      fanOutSurfaces 1 emptyBufs).2.remap 2 = some 1) ∧
    (alFind (compressAndIntegrateFlat 1 emptyState fanOutVertices
      fanOutSurfaces 1 emptyBufs).2.remap 3 = some 2) ∧
    ((compressAndIntegrateFlat 1 emptyState fanOutVertices
      fanOutSurfaces 1 emptyBufs).1.allVertices =
      [⟨0, 0, 0⟩, ⟨5, 0, 0⟩, ⟨9, 0, 0⟩]) := by
  decide

/-- C5: idempotence on exact re-submission fails on the code: feeding
`convergedCornerVertices` twice with the same stamp leaves no polygon after
the first call but commits the triangle `[0, 1, 2]` during the second call,
so the second call's `new_triangles` is non-empty and the Mesh Store state
after the second call differs from the state after the first. -/
theorem resubmission_commits_previously_dropped_triangle :
    ((compressAndIntegrateFlat 1 emptyState convergedCornerVertices
      convergedCornerSurfaces 1 emptyBufs).1.polygons = []) ∧
    ((compressAndIntegrateFlat 1
        (compressAndIntegrateFlat 1 emptyState convergedCornerVertices
          convergedCornerSurfaces 1 emptyBufs).1
        convergedCornerVertices convergedCornerSurfaces 1
        emptyBufs).2.newTriangles = [[0, 1, 2]]) ∧
    ((compressAndIntegrateFlat 1
        (compressAndIntegrateFlat 1 emptyState convergedCornerVertices
          convergedCornerSurfaces 1 emptyBufs).1
        convergedCornerVertices convergedCornerSurfaces 1
        emptyBufs).1.polygons = [[0, 1, 2]]) := by
  decide

/-- C3 counterexample: submitting the same triangle twice (with flipped
orientation) in one batch over three fresh vertices stores two polygons that
are equal as unordered vertex sets — the duplicate-surface check is skipped
for any face containing a newly committed vertex. -/
theorem duplicate_surfaces_stored_in_one_batch :
    ((compressAndIntegrateFlat 1 emptyState [⟨0, 0, 0⟩, ⟨5, 0, 0⟩, ⟨9, 0, 0⟩]
      [[0, 1, 2], [0, 2, 1]] 1 emptyBufs).1.polygons =
      [[0, 1, 2], [0, 2, 1]]) ∧
    sameVertexSet [0, 1, 2] [0, 2, 1] = true := by
  decide

/-- C6 counterexample: a backend failure while inserting the fourth committed
vertex of the two-far-triangles batch surfaces the error, but the Mesh Store
is not rolled back to its entry state — the three vertices committed before
the failure remain in `all_vertices` (which was empty at entry). -/
theorem backend_failure_leaves_partial_commits :
    errAllVertices (compressFlatFail 1 failOnXTen emptyState farVertices
      farSurfaces 1 emptyBufs) =
      some [⟨0, 0, 0⟩, ⟨2, 0, 0⟩, ⟨0, 2, 0⟩] ∧
    emptyState.allVertices = [] := by
  decide

/-- C7 counterexample: when the last-seen array is longer than the active
position and index arrays, the prune loop (bounded by the last-seen length)
reads the shorter arrays out of range — it does not iterate only over the
minimum of the three lengths. -/
theorem prune_reads_past_shorter_arrays :
    pruneStoredMesh staleLongTimes 0 = none ∧
    staleLongTimes.latestTime.length = 2 ∧
    staleLongTimes.activeXyz.length = 1 ∧
    staleLongTimes.activeIndex.length = 1 := by
  decide

end KimeraPgmo
